import Mathlib

/-!
Shallow embedding of the ranking pipeline in `rank.py`: CSV ingestion
(`load_results`), win-matrix aggregation (`build_win_matrix`), the
Bradley-Terry MM fitter (`bradley_terry`), the ranker (`rank_scores`) and
the power-law allocator (`powerlaw_allocations`).  Double-precision
floating-point arithmetic of the source is modelled by exact rational
arithmetic (the fitter) and by real arithmetic (the allocator, whose
weights use a fractional power).  Python dicts are modelled as total
functions together with explicit key lists; dict updates are pointwise
function updates.
-/

/-- Constant `MAX_ITERS = 10_000` from the source. -/
def MAX_ITERS : ℕ := 10000

/-- Constant `TOL = 1e-10` from the source, as an exact rational. -/
def TOL : ℚ := 1 / 10 ^ 10

/-- The literal `1e-12` used as the tiny mass kept for zero-win players. -/
def tinyMass : ℚ := 1 / 10 ^ 12

/-- Constant `MAX_FIL_PER_APP = 100_000`. -/
def MAX_FIL_PER_APP : ℤ := 100000

/-- Constant `MIN_FIL_PER_VOTE = 500`. -/
def MIN_FIL_PER_VOTE : ℤ := 500

/-- Constant `POWER_LAW_ALPHA = 0.8`. -/
noncomputable def POWER_LAW_ALPHA : ℝ := 0.8

/-- Constant `POWER_LAW_TOP_N = 30`. -/
def POWER_LAW_TOP_N : ℕ := 30

/-- Constant `BUDGET_FIL = 510_000`. -/
def BUDGET_FIL : ℤ := 510000

/-!
## Bradley-Terry fitter (`bradley_terry`, rank.py lines 78-122)

A win matrix is a key list `players` (the keys of the Python dict `wins`)
together with a count function `w : String → String → ℕ` (the nested dict,
with the defaultdict value 0 outside recorded pairs).  The documented
invariant of `build_win_matrix` is that every inner key is also an outer
key, so `sum(wins[i].values())` is the sum of `w i j` over all players `j`.
-/

/-- The line `wins_i = sum(wins[i].values())`. -/
def winsOf (w : String → String → ℕ) (players : List String) (i : String) : ℕ :=
  (players.map (w i)).sum

/-- The quantity `n_ij = wins[i].get(j, 0) + wins[j].get(i, 0)`. -/
def nMatches (w : String → String → ℕ) (i j : String) : ℕ := w i j + w j i

/-- The accumulation loop computing `denom` for player `i`: skip `j == i`,
skip pairs with `n_ij == 0`, otherwise add `n_ij / (scores[i] + scores[j])`. -/
def btDenom (w : String → String → ℕ) (players : List String) (p : String → ℚ)
    (i : String) : ℚ :=
  players.foldl
    (fun d j =>
      if i = j then d
      else if nMatches w i j = 0 then d
      else d + (nMatches w i j : ℚ) / (p i + p j)) 0

/-- One unnormalized update `new_scores[i]`: the tiny mass `1e-12` for a
zero-win player, else `wins_i / denom` when `denom > 0`, else `1e-12`. -/
def btNew (w : String → String → ℕ) (players : List String) (p : String → ℚ)
    (i : String) : ℚ :=
  if winsOf w players i = 0 then tinyMass
  else if 0 < btDenom w players p i then (winsOf w players i : ℚ) / btDenom w players p i
  else tinyMass

/-- The pre-normalization sum `total = sum(new_scores.values())`. -/
def preTotal (w : String → String → ℕ) (players : List String) (p : String → ℚ) : ℚ :=
  (players.map (btNew w players p)).sum

/-- One full round of the MM update followed by the in-place renormalization
`new_scores[k] /= total`. -/
def btStep (w : String → String → ℕ) (players : List String) (p : String → ℚ) :
    String → ℚ :=
  fun i => btNew w players p i / preTotal w players p

/-- The convergence measure `delta = max(abs(new_scores[k] - scores[k]))`
over the players, computed as a fold starting at 0 (all summands are
non-negative, so this agrees with the Python `max` on a non-empty list). -/
def maxDelta (players : List String) (p q : String → ℚ) : ℚ :=
  players.foldl (fun m k => max m |q k - p k|) 0

/-- The normalized iterates of the round function, starting from a given
score vector. -/
def btIter (w : String → String → ℕ) (players : List String) (p : String → ℚ) :
    ℕ → (String → ℚ)
  | 0 => p
  | k + 1 => btStep w players (btIter w players p k)

/-- The `for _ in range(max_iters)` loop of `bradley_terry`: raise
(RuntimeError, modelled as `Except.error ()`) when the pre-normalization
total is not positive, stop returning the freshly normalized vector once
`delta < tol`, and return the last computed vector when the iteration cap
is exhausted. -/
def btLoop (w : String → String → ℕ) (players : List String) :
    ℕ → (String → ℚ) → Except Unit (String → ℚ)
  | 0, p => .ok p
  | fuel + 1, p =>
    if preTotal w players p ≤ 0 then .error ()
    else
      if maxDelta players p (btStep w players p) < TOL then .ok (btStep w players p)
      else btLoop w players fuel (btStep w players p)

/-- `bradley_terry(wins, max_iters, tol)`: sort the keys, start from the
all-ones vector, and run the MM loop. -/
def bradley_terry (keys : List String) (w : String → String → ℕ) (max_iters : ℕ) :
    Except Unit (String → ℚ) :=
  btLoop w (keys.mergeSort (fun a b => decide (a ≤ b))) max_iters (fun _ => 1)

/-- Read a fitted score out of the result of the fitter (0 when the fitter
failed; only used on successful runs). -/
def scoreOf (r : Except Unit (String → ℚ)) (i : String) : ℚ :=
  match r with
  | .ok p => p i
  | .error _ => 0

lemma tinyMass_pos : 0 < tinyMass := by norm_num [tinyMass]

lemma btNew_pos (w : String → String → ℕ) (players : List String) (p : String → ℚ)
    (i : String) : 0 < btNew w players p i := by
  unfold btNew
  split_ifs with h1 h2
  · exact tinyMass_pos
  · exact div_pos (by exact_mod_cast Nat.pos_of_ne_zero h1) h2
  · exact tinyMass_pos

lemma preTotal_pos (w : String → String → ℕ) {players : List String} (p : String → ℚ)
    (hne : players ≠ []) : 0 < preTotal w players p := by
  apply List.sum_pos
  · intro x hx
    rcases List.mem_map.mp hx with ⟨i, _, rfl⟩
    exact btNew_pos w players p i
  · simpa using hne

lemma preTotal_nil (w : String → String → ℕ) (p : String → ℚ) :
    preTotal w [] p = 0 := rfl

lemma btStep_pos (w : String → String → ℕ) {players : List String} (p : String → ℚ)
    (hne : players ≠ []) (i : String) : 0 < btStep w players p i :=
  div_pos (btNew_pos w players p i) (preTotal_pos w p hne)

lemma btStep_sum (w : String → String → ℕ) {players : List String} (p : String → ℚ)
    (hne : players ≠ []) : (players.map (btStep w players p)).sum = 1 := by
  have ht := preTotal_pos w p hne
  unfold btStep
  have : (players.map fun i => btNew w players p i / preTotal w players p)
      = players.map fun i => btNew w players p i * (preTotal w players p)⁻¹ := by
    simp [div_eq_mul_inv]
  rw [this, List.sum_map_mul_right]
  exact mul_inv_cancel₀ (ne_of_gt ht)

lemma btLoop_ok (w : String → String → ℕ) {players : List String} (hne : players ≠ []) :
    ∀ fuel p, ∃ r, btLoop w players (fuel + 1) p = .ok r
      ∧ (∀ i, 0 < r i) ∧ (players.map r).sum = 1 := by
  intro fuel
  induction fuel with
  | zero =>
    intro p
    refine ⟨btStep w players p, ?_, fun i => btStep_pos w p hne i, btStep_sum w p hne⟩
    have hT : ¬ preTotal w players p ≤ 0 := not_le.mpr (preTotal_pos w p hne)
    by_cases hd : maxDelta players p (btStep w players p) < TOL
    · simp [btLoop, hT, hd]
    · simp [btLoop, hT, hd]
  | succ n ih =>
    intro p
    have hT : ¬ preTotal w players p ≤ 0 := not_le.mpr (preTotal_pos w p hne)
    by_cases hd : maxDelta players p (btStep w players p) < TOL
    · exact ⟨btStep w players p, by simp [btLoop, hT, hd],
        fun i => btStep_pos w p hne i, btStep_sum w p hne⟩
    · obtain ⟨r, hr, h1, h2⟩ := ih (btStep w players p)
      exact ⟨r, by simpa [btLoop, hT, hd] using hr, h1, h2⟩

lemma btIter_shift (w : String → String → ℕ) (players : List String) (p : String → ℚ)
    (k : ℕ) : btIter w players (btStep w players p) k = btIter w players p (k + 1) := by
  induction k with
  | zero => rfl
  | succ n ih => simp [btIter, ih]

/-- Claim C1: for every non-empty win matrix, the fitter renormalizes the
scores at the end of every round (after each round the normalized vector
sums to 1), and the returned vector assigns every entity a strictly
positive score with the scores summing to exactly 1 (hence within any
tolerance). -/
theorem bradley_terry_returns_simplex (keys : List String) (w : String → String → ℕ)
    (max_iters : ℕ) (hk : keys ≠ []) (hmi : 0 < max_iters) :
    (∀ p, ((keys.mergeSort (fun a b => decide (a ≤ b))).map
        (btStep w (keys.mergeSort (fun a b => decide (a ≤ b))) p)).sum = 1)
    ∧ ∃ r, bradley_terry keys w max_iters = .ok r
        ∧ (∀ i ∈ keys, 0 < r i) ∧ (keys.map r).sum = 1 := by
  have hperm : (keys.mergeSort (fun a b => decide (a ≤ b))).Perm keys :=
    List.mergeSort_perm keys _
  have hne : keys.mergeSort (fun a b => decide (a ≤ b)) ≠ [] := by
    intro h
    exact hk (List.Perm.eq_nil (h ▸ hperm.symm))
  constructor
  · intro p
    exact btStep_sum w p hne
  · obtain ⟨n, rfl⟩ : ∃ n, max_iters = n + 1 := ⟨max_iters - 1, by omega⟩
    obtain ⟨r, hr, hpos, hsum⟩ := btLoop_ok w hne n (fun _ => 1)
    refine ⟨r, hr, fun i _ => hpos i, ?_⟩
    rw [← (hperm.map r).sum_eq]
    exact hsum

/-- Witness for claim C1 at the one-player matrix with no recorded wins. -/
theorem bradley_terry_returns_simplex_witness :
    (∀ p, (((["A"] : List String).mergeSort (fun a b => decide (a ≤ b))).map
        (btStep (fun _ _ => 0) ((["A"] : List String).mergeSort (fun a b => decide (a ≤ b))) p)).sum = 1)
    ∧ ∃ r, bradley_terry ["A"] (fun _ _ => 0) 1 = .ok r
        ∧ (∀ i ∈ (["A"] : List String), 0 < r i) ∧ ((["A"] : List String).map r).sum = 1 :=
  bradley_terry_returns_simplex ["A"] (fun _ _ => 0) 1 (by simp) (by norm_num)

/-- Claim C2: the loop of the fitter fails (the RuntimeError site) exactly
when some reached round has a non-positive pre-normalization total, and
when the iteration cap runs out without the convergence test firing the
loop returns the last computed normalized vector rather than failing. -/
theorem bradley_terry_error_iff_nonpositive_total (w : String → String → ℕ)
    (players : List String) (fuel : ℕ) (p : String → ℚ) :
    (btLoop w players fuel p = .error ()
      ↔ ∃ k, k < fuel ∧ preTotal w players (btIter w players p k) ≤ 0)
    ∧ (players ≠ [] →
        (∀ k, k < fuel →
          TOL ≤ maxDelta players (btIter w players p k) (btIter w players p (k + 1))) →
        btLoop w players fuel p = .ok (btIter w players p fuel)) := by
  induction fuel generalizing p with
  | zero =>
    constructor
    · simp [btLoop]
    · intro _ _
      simp [btLoop, btIter]
  | succ n ih =>
    by_cases hT : preTotal w players p ≤ 0
    · constructor
      · constructor
        · intro _
          exact ⟨0, Nat.succ_pos n, by simpa [btIter] using hT⟩
        · intro _
          simp [btLoop, hT]
      · intro hne _
        exact absurd hT (not_le.mpr (preTotal_pos w p hne))
    · have hne : players ≠ [] := by
        intro h
        subst h
        exact hT (preTotal_nil w p).le
      by_cases hd : maxDelta players p (btStep w players p) < TOL
      · constructor
        · constructor
          · intro habs
            simp [btLoop, hT, hd] at habs
          · rintro ⟨k, _, hle⟩
            rcases k with _ | j
            · exact absurd (by simpa [btIter] using hle) hT
            · exact absurd hle (not_le.mpr (preTotal_pos w _ hne))
        · intro _ hnd
          have h0 := hnd 0 (Nat.succ_pos n)
          simp [btIter] at h0
          exact absurd hd (not_lt.mpr h0)
      · have ihs := ih (btStep w players p)
        have hstep : btLoop w players (n + 1) p = btLoop w players n (btStep w players p) := by
          simp [btLoop, hT, hd]
        constructor
        · rw [hstep, ihs.1]
          constructor
          · rintro ⟨k, hk, hle⟩
            exact ⟨k + 1, Nat.succ_lt_succ hk, by rwa [btIter_shift] at hle⟩
          · rintro ⟨k, hk, hle⟩
            rcases k with _ | j
            · exact absurd (by simpa [btIter] using hle) hT
            · exact ⟨j, Nat.lt_of_succ_lt_succ hk, by rwa [btIter_shift]⟩
        · intro _ hnd
          rw [hstep]
          have h2 := ihs.2 hne (fun k hk => by
            have hx := hnd (k + 1) (Nat.succ_lt_succ hk)
            rwa [← btIter_shift, ← btIter_shift] at hx)
          rw [h2, btIter_shift]

/-- A two-player matrix in which only player A records a win. -/
def winsAB : String → String → ℕ := fun a b => if a = "A" ∧ b = "B" then 1 else 0

/-- Witness for claim C2: on a concrete two-player matrix whose first round
moves by more than the tolerance, the loop with a cap of one round returns
the first iterate instead of failing. -/
theorem bradley_terry_error_iff_nonpositive_total_witness :
    btLoop winsAB ["A", "B"] 1 (fun _ => 1) = .ok (btIter winsAB ["A", "B"] (fun _ => 1) 1) :=
  (bradley_terry_error_iff_nonpositive_total winsAB ["A", "B"] 1 (fun _ => 1)).2 (by simp)
    (by
      intro k hk
      have hk0 : k = 0 := by omega
      subst hk0
      show TOL ≤ maxDelta ["A", "B"] (btIter winsAB ["A", "B"] (fun _ => 1) 0)
        (btIter winsAB ["A", "B"] (fun _ => 1) 1)
      with_unfolding_all decide)

/-- Claim C9: if the convergence test fires at a score vector (one more
round moves every entity by less than the tolerance), then re-running the
MM loop seeded with that vector stops after that first round and returns a
vector within tolerance of the seed: the converged vector is an
approximate fixed point of the update. -/
theorem converged_vector_is_fixed_point (w : String → String → ℕ) (players : List String)
    (fuel : ℕ) (p : String → ℚ) (hne : players ≠ []) (hfuel : 0 < fuel)
    (hconv : maxDelta players p (btStep w players p) < TOL) :
    btLoop w players fuel p = .ok (btStep w players p)
    ∧ maxDelta players p (btStep w players p) < TOL := by
  obtain ⟨n, rfl⟩ : ∃ n, fuel = n + 1 := ⟨fuel - 1, by omega⟩
  refine ⟨?_, hconv⟩
  have hT : ¬ preTotal w players p ≤ 0 := not_le.mpr (preTotal_pos w p hne)
  simp [btLoop, hT, hconv]

/-- A symmetric two-player matrix: one win each way between A and B. -/
def winsSym : String → String → ℕ := fun a b =>
  if (a = "A" ∧ b = "B") ∨ (a = "B" ∧ b = "A") then 1 else 0

/-- Witness for claim C9: the uniform vector on the symmetric two-player
matrix passes the convergence test, and the re-seeded loop reproduces it. -/
theorem converged_vector_is_fixed_point_witness :
    btLoop winsSym ["A", "B"] MAX_ITERS (fun _ => 1 / 2)
      = .ok (btStep winsSym ["A", "B"] (fun _ => 1 / 2))
    ∧ maxDelta ["A", "B"] (fun _ => 1 / 2) (btStep winsSym ["A", "B"] (fun _ => 1 / 2)) < TOL :=
  converged_vector_is_fixed_point winsSym ["A", "B"] MAX_ITERS (fun _ => 1 / 2) (by simp)
    (by norm_num [MAX_ITERS]) (by with_unfolding_all decide)

/-- A three-player matrix: B beats A once, C beats B ten trillion times.
A records no win at all. -/
def winsCex : String → String → ℕ := fun a b =>
  if a = "B" ∧ b = "A" then 1 else if a = "C" ∧ b = "B" then 10 ^ 13 else 0

/-- Counterexample to claim C3: on `winsCex` the fitter succeeds, entity A
has zero wins and entity B has nonzero wins, yet the fitted score of the
nonzero-win entity B is strictly below the fitted score of the zero-win
entity A (B is crushed below the 1e-12 floor by its huge loss count), so a
zero-win entity does not always rank strictly below every nonzero-win
entity. -/
theorem zero_win_entity_can_outscore_a_winner :
    (bradley_terry ["A", "B", "C"] winsCex MAX_ITERS).isOk = true
    ∧ winsOf winsCex ["A", "B", "C"] "A" = 0
    ∧ winsOf winsCex ["A", "B", "C"] "B" ≠ 0
    ∧ scoreOf (bradley_terry ["A", "B", "C"] winsCex MAX_ITERS) "B"
        < scoreOf (bradley_terry ["A", "B", "C"] winsCex MAX_ITERS) "A" := by
  with_unfolding_all decide

/-- Claim C3 as amended: every zero-win entity still receives a strictly
positive fitted score (the strict comparison against every nonzero-win
entity does not hold in general, as the counterexample shows). -/
theorem zero_win_scores_positive (keys : List String) (w : String → String → ℕ)
    (max_iters : ℕ) (hk : keys ≠ []) (hmi : 0 < max_iters) :
    ∃ r, bradley_terry keys w max_iters = .ok r
      ∧ ∀ i ∈ keys, winsOf w keys i = 0 → 0 < r i := by
  have hperm : (keys.mergeSort (fun a b => decide (a ≤ b))).Perm keys :=
    List.mergeSort_perm keys _
  have hne : keys.mergeSort (fun a b => decide (a ≤ b)) ≠ [] := by
    intro h
    exact hk (List.Perm.eq_nil (h ▸ hperm.symm))
  obtain ⟨n, rfl⟩ : ∃ n, max_iters = n + 1 := ⟨max_iters - 1, by omega⟩
  obtain ⟨r, hr, hpos, -⟩ := btLoop_ok w hne n (fun _ => 1)
  exact ⟨r, hr, fun i _ _ => hpos i⟩

/-- Witness for the amended claim C3 at the one-player zero-win matrix. -/
theorem zero_win_scores_positive_witness :
    ∃ r, bradley_terry ["Z"] (fun _ _ => 0) 1 = .ok r
      ∧ ∀ i ∈ (["Z"] : List String), winsOf (fun _ _ => 0) ["Z"] i = 0 → 0 < r i :=
  zero_win_scores_positive ["Z"] (fun _ _ => 0) 1 (by simp) (by norm_num)

/-!
## Ranker (`rank_scores`, rank.py lines 125-127)

The Python sort key is the pair `(-score, name)` under lexicographic
order; `RankOrder a b` states that `a` may be placed before `b`.
-/

/-- The comparison induced by the sort key `(-kv[1], kv[0])`: higher score
first, ties broken by ascending name. -/
def RankOrder (a b : String × ℚ) : Prop :=
  b.2 < a.2 ∨ (a.2 = b.2 ∧ a.1 ≤ b.1)

instance RankOrder.instDecRel : DecidableRel RankOrder := fun a b => by
  unfold RankOrder
  infer_instance

/-- `rank_scores(scores)`: sort the items of the strength vector by the
key `(-score, name)`. -/
def rank_scores (scores : List (String × ℚ)) : List (String × ℚ) :=
  scores.mergeSort (fun a b => decide (RankOrder a b))

lemma rankOrder_total (a b : String × ℚ) : RankOrder a b ∨ RankOrder b a := by
  unfold RankOrder
  rcases lt_trichotomy a.2 b.2 with h | h | h
  · exact Or.inr (Or.inl h)
  · rcases le_total a.1 b.1 with hn | hn
    · exact Or.inl (Or.inr ⟨h, hn⟩)
    · exact Or.inr (Or.inr ⟨h.symm, hn⟩)
  · exact Or.inl (Or.inl h)

lemma rankOrder_trans (a b c : String × ℚ) (hab : RankOrder a b) (hbc : RankOrder b c) :
    RankOrder a c := by
  unfold RankOrder at *
  rcases hab with h1 | ⟨h1, n1⟩
  · rcases hbc with h2 | ⟨h2, n2⟩
    · exact Or.inl (h2.trans h1)
    · exact Or.inl (h2 ▸ h1)
  · rcases hbc with h2 | ⟨h2, n2⟩
    · exact Or.inl (h1 ▸ h2)
    · exact Or.inr ⟨h1.trans h2, n1.trans n2⟩

lemma rankOrder_antisymm (a b : String × ℚ) (hab : RankOrder a b) (hba : RankOrder b a) :
    a = b := by
  unfold RankOrder at *
  rcases hab with h1 | ⟨h1, n1⟩
  · rcases hba with h2 | ⟨h2, n2⟩
    · exact absurd (h1.trans h2) (lt_irrefl _)
    · exact absurd h1 (h2 ▸ lt_irrefl _)
  · rcases hba with h2 | ⟨h2, n2⟩
    · exact absurd h2 (h1 ▸ lt_irrefl _)
    · exact Prod.ext (le_antisymm n1 n2) h1

/-- Claim C4: the ranker returns exactly the entries of the strength
vector, sorted so that scores are non-increasing with exact score ties in
ascending name order; this comparison is total and antisymmetric, hence
the sorted output is the unique such arrangement (no nondeterminism), and
the input list is untouched (the ranker is a pure function of it). -/
theorem rank_scores_spec (scores : List (String × ℚ)) :
    (rank_scores scores).Perm scores
    ∧ (rank_scores scores).Sorted RankOrder
    ∧ (∀ a b : String × ℚ, RankOrder a b ∨ RankOrder b a)
    ∧ (∀ a b : String × ℚ, RankOrder a b → RankOrder b a → a = b)
    ∧ ∀ ys, ys.Perm scores → ys.Sorted RankOrder → ys = rank_scores scores := by
  have hperm := List.mergeSort_perm scores (fun a b => decide (RankOrder a b))
  have hsorted : (rank_scores scores).Sorted RankOrder := by
    have hs := @List.sorted_mergeSort (String × ℚ) (fun a b => decide (RankOrder a b))
      (fun a b c hab hbc => by
        simp only [decide_eq_true_eq] at *
        exact rankOrder_trans a b c hab hbc)
      (fun a b => by
        simp only [Bool.or_eq_true, decide_eq_true_eq]
        exact rankOrder_total a b)
      scores
    exact hs.imp (fun h => by simpa using h)
  refine ⟨hperm, hsorted, rankOrder_total, rankOrder_antisymm, ?_⟩
  intro ys hys hsort
  haveI : IsAntisymm (String × ℚ) RankOrder := ⟨fun a b => rankOrder_antisymm a b⟩
  exact List.eq_of_perm_of_sorted (hys.trans hperm.symm) hsort hsorted

/-- Witness for claim C4: the uniqueness clause pins down the sorted
arrangement of a concrete three-entry vector with one exact score tie. -/
theorem rank_scores_spec_witness :
    ([("C", (3 : ℚ)), ("A", 2), ("B", 2)] : List (String × ℚ))
      = rank_scores [("B", (2 : ℚ)), ("A", 2), ("C", 3)] :=
  (rank_scores_spec [("B", (2 : ℚ)), ("A", 2), ("C", 3)]).2.2.2.2
    [("C", 3), ("A", 2), ("B", 2)]
    (by with_unfolding_all decide)
    (by with_unfolding_all decide)

/-!
## Power-law allocator (`powerlaw_allocations`, rank.py lines 130-164)

The allocations dict is modelled as `String → Option ℤ` built by pointwise
updates (`none` = key absent).  The float expression `1 / idx ** alpha` is
modelled over the reals with the real power function, and the Python
`round` as the integer rounding of Mathlib.
-/

/-- One dict write `allocations[name] = v`. -/
def updAlloc (f : String → Option ℤ) (k : String) (v : ℤ) : String → Option ℤ :=
  fun x => if x = k then some v else f x

/-- The per-rank weights `[1 / (idx ** alpha) for idx in range(1, len(consider) + 1)]`. -/
noncomputable def powerlawWeights (n : ℕ) (alpha : ℝ) : List ℝ :=
  (List.range n).map (fun k => 1 / (((k + 1 : ℕ) : ℝ) ^ alpha))

/-- The scale factor `budget_fil / weight_sum` with the Python
`sum(weights) or 1.0` fallback for a zero weight sum. -/
noncomputable def powerlawScale (n : ℕ) (alpha : ℝ) (budget_fil : ℤ) : ℝ :=
  (budget_fil : ℝ) / (if (powerlawWeights n alpha).sum = 0 then 1 else (powerlawWeights n alpha).sum)

/-- The first loop of `powerlaw_allocations`: for each considered entry,
round the scaled weight, zero it below `min_fil`, cap it at `max_fil`. -/
noncomputable def powerlawTop (ranked : List (String × ℚ)) (alpha : ℝ)
    (top_n : ℕ) (max_fil min_fil budget_fil : ℤ) : String → Option ℤ :=
  let consider := ranked.take top_n
  let scale := powerlawScale consider.length alpha budget_fil
  (consider.zip (powerlawWeights consider.length alpha)).foldl
    (fun acc nw =>
      updAlloc acc nw.1.1
        (if round (scale * nw.2) < min_fil then 0 else min max_fil (round (scale * nw.2))))
    (fun _ => none)

/-- `powerlaw_allocations(ranked, alpha, top_n, max_fil, min_fil, budget_fil)`:
the first loop over the `top_n` window followed by the second loop writing
an explicit 0 for every entry beyond `top_n`. -/
noncomputable def powerlaw_allocations (ranked : List (String × ℚ)) (alpha : ℝ)
    (top_n : ℕ) (max_fil min_fil budget_fil : ℤ) : String → Option ℤ :=
  (ranked.drop top_n).foldl (fun acc ns => updAlloc acc ns.1 0)
    (powerlawTop ranked alpha top_n max_fil min_fil budget_fil)

lemma foldl_updAlloc_of_not_mem {α : Type} (key : α → String) (v : α → ℤ)
    (l : List α) (acc : String → Option ℤ) (nm : String) (h : nm ∉ l.map key) :
    (l.foldl (fun a x => updAlloc a (key x) (v x)) acc) nm = acc nm := by
  induction l generalizing acc with
  | nil => rfl
  | cons x xs ih =>
    simp only [List.map_cons, List.mem_cons, not_or] at h
    simp only [List.foldl_cons]
    rw [ih _ h.2]
    simp [updAlloc, h.1]

lemma foldl_updAlloc_isSome {α : Type} (key : α → String) (v : α → ℤ)
    (l : List α) (acc : String → Option ℤ) (nm : String) :
    ((l.foldl (fun a x => updAlloc a (key x) (v x)) acc) nm).isSome
      ↔ nm ∈ l.map key ∨ (acc nm).isSome := by
  induction l generalizing acc with
  | nil => simp
  | cons x xs ih =>
    simp only [List.foldl_cons, List.map_cons, List.mem_cons]
    rw [ih]
    by_cases hx : nm = key x
    · subst hx
      simp [updAlloc]
    · simp [updAlloc, hx]

lemma foldl_updAlloc_zero {α : Type} (key : α → String)
    (l : List α) (acc : String → Option ℤ) (nm : String) (h : nm ∈ l.map key) :
    (l.foldl (fun a x => updAlloc a (key x) 0) acc) nm = some 0 := by
  induction l generalizing acc with
  | nil => simp at h
  | cons x xs ih =>
    simp only [List.foldl_cons]
    by_cases hx : nm ∈ xs.map key
    · exact ih _ hx
    · have hnm : nm = key x := by
        simp only [List.map_cons, List.mem_cons] at h
        tauto
      rw [foldl_updAlloc_of_not_mem key (fun _ => 0) xs _ nm hx]
      simp [updAlloc, hnm]

lemma foldl_updAlloc_values {α : Type} (P : ℤ → Prop) (key : α → String) (v : α → ℤ)
    (l : List α) (acc : String → Option ℤ)
    (hl : ∀ x ∈ l, P (v x)) (hacc : ∀ nm u, acc nm = some u → P u) :
    ∀ nm u, (l.foldl (fun a x => updAlloc a (key x) (v x)) acc) nm = some u → P u := by
  induction l generalizing acc with
  | nil => exact hacc
  | cons x xs ih =>
    simp only [List.foldl_cons]
    apply ih
    · intro y hy
      exact hl y (List.mem_cons_of_mem x hy)
    · intro nm u hu
      by_cases hx : nm = key x
      · subst hx
        have hv : v x = u := by simpa [updAlloc] using hu
        exact hv ▸ hl x (List.mem_cons_self x xs)
      · exact hacc nm u (by simpa [updAlloc, hx] using hu)

lemma powerlawTop_isSome (ranked : List (String × ℚ)) (alpha : ℝ)
    (top_n : ℕ) (max_fil min_fil budget_fil : ℤ) (nm : String)
    (h : nm ∈ (ranked.take top_n).map Prod.fst) :
    (powerlawTop ranked alpha top_n max_fil min_fil budget_fil nm).isSome := by
  unfold powerlawTop
  rw [foldl_updAlloc_isSome]
  left
  have hlen : (ranked.take top_n).length
      ≤ (powerlawWeights (ranked.take top_n).length alpha).length := by
    simp [powerlawWeights]
  have hmap : ((ranked.take top_n).zip
        (powerlawWeights (ranked.take top_n).length alpha)).map (fun nw => nw.1.1)
      = (ranked.take top_n).map Prod.fst := by
    have : (fun nw : (String × ℚ) × ℝ => nw.1.1)
        = Prod.fst ∘ (Prod.fst : (String × ℚ) × ℝ → String × ℚ) := rfl
    rw [this, ← List.map_map, List.map_fst_zip _ _ hlen]
  rw [hmap]
  exact h

/-- Claim C6: the allocation map contains an entry for every entity of the
ranked list, and every entity beyond the `top_n` window is present with
allocation exactly 0, for every budget, alpha and clamp setting. -/
theorem powerlaw_covers_all_entities (ranked : List (String × ℚ)) (alpha : ℝ)
    (top_n : ℕ) (max_fil min_fil budget_fil : ℤ) :
    (∀ nm ∈ ranked.map Prod.fst,
      (powerlaw_allocations ranked alpha top_n max_fil min_fil budget_fil nm).isSome)
    ∧ ∀ ns ∈ ranked.drop top_n,
      powerlaw_allocations ranked alpha top_n max_fil min_fil budget_fil ns.1 = some 0 := by
  constructor
  · intro nm hnm
    have hsplit : nm ∈ (ranked.take top_n).map Prod.fst ∨ nm ∈ (ranked.drop top_n).map Prod.fst := by
      rw [← List.mem_append, ← List.map_append, List.take_append_drop]
      exact hnm
    rcases hsplit with h | h
    · by_cases hd : nm ∈ (ranked.drop top_n).map Prod.fst
      · have h0 : powerlaw_allocations ranked alpha top_n max_fil min_fil budget_fil nm
            = some 0 := foldl_updAlloc_zero Prod.fst _ _ _ hd
        rw [h0]
        rfl
      · have h0 : powerlaw_allocations ranked alpha top_n max_fil min_fil budget_fil nm
            = powerlawTop ranked alpha top_n max_fil min_fil budget_fil nm :=
          foldl_updAlloc_of_not_mem Prod.fst (fun _ => 0) _ _ _ hd
        rw [h0]
        exact powerlawTop_isSome ranked alpha top_n max_fil min_fil budget_fil nm h
    · have h0 : powerlaw_allocations ranked alpha top_n max_fil min_fil budget_fil nm
          = some 0 := foldl_updAlloc_zero Prod.fst _ _ _ h
      rw [h0]
      rfl
  · intro ns hns
    exact foldl_updAlloc_zero Prod.fst _ _ _ (List.mem_map.mpr ⟨ns, hns, rfl⟩)

/-- Witness for claim C6: with a window of zero, the single ranked entity
is still present in the allocation map, with allocation 0. -/
theorem powerlaw_covers_all_entities_witness :
    powerlaw_allocations [("A", (1 : ℚ))] POWER_LAW_ALPHA 0 MAX_FIL_PER_APP
      MIN_FIL_PER_VOTE BUDGET_FIL "A" = some 0 :=
  (powerlaw_covers_all_entities [("A", (1 : ℚ))] POWER_LAW_ALPHA 0 MAX_FIL_PER_APP
      MIN_FIL_PER_VOTE BUDGET_FIL).2 ("A", (1 : ℚ)) (by simp)

/-- Counterexample to claim C5: with clamp bounds `min_alloc = 10` and
`max_alloc = 5` (an empty interval), a raw allocation of 20 passes the
lower check and is then capped to 5, which is neither 0 nor inside
`[min_alloc, max_alloc]`; so the claim fails for configurations whose
bounds are not ordered. -/
theorem powerlaw_alloc_below_min_cex :
    powerlaw_allocations [("A", (1 : ℚ))] POWER_LAW_ALPHA 1 5 10 20 "A" = some 5
    ∧ ¬((5 : ℤ) = 0 ∨ ((10 : ℤ) ≤ 5 ∧ (5 : ℤ) ≤ 5)) := by
  constructor
  · show powerlawTop [("A", (1 : ℚ))] POWER_LAW_ALPHA 1 5 10 20 "A" = some 5
    unfold powerlawTop powerlawScale powerlawWeights
    simp only [List.take, List.length_cons, List.length_nil]
    rw [show List.range 1 = [0] from rfl]
    simp only [List.map_cons, List.map_nil, List.sum_cons, List.sum_nil]
    norm_num [Real.one_rpow, updAlloc, round_eq]
  · norm_num

/-- Claim C5 as amended: when the clamp bounds satisfy
`min_alloc ≤ max_alloc`, every allocation in the returned map is either
exactly 0 or lies in `[min_alloc, max_alloc]`; a rounded value below
`min_alloc` is zeroed, anything else is capped at `max_alloc`. -/
theorem powerlaw_alloc_zero_or_in_range (ranked : List (String × ℚ)) (alpha : ℝ)
    (top_n : ℕ) (max_fil min_fil budget_fil : ℤ) (hmm : min_fil ≤ max_fil) :
    ∀ nm v, powerlaw_allocations ranked alpha top_n max_fil min_fil budget_fil nm = some v →
      v = 0 ∨ (min_fil ≤ v ∧ v ≤ max_fil) := by
  intro nm v hv
  refine foldl_updAlloc_values (fun u => u = 0 ∨ (min_fil ≤ u ∧ u ≤ max_fil))
    Prod.fst (fun _ => 0) (ranked.drop top_n) _ (fun x _ => Or.inl rfl) ?_ nm v hv
  intro nm2 u hu
  unfold powerlawTop at hu
  refine foldl_updAlloc_values (fun u => u = 0 ∨ (min_fil ≤ u ∧ u ≤ max_fil))
    (fun nw : (String × ℚ) × ℝ => nw.1.1) _ _ _ ?_ ?_ nm2 u hu
  · intro x _
    dsimp only
    split_ifs with hlt
    · exact Or.inl rfl
    · exact Or.inr ⟨le_min hmm (not_lt.mp hlt), min_le_left _ _⟩
  · intro nm3 u3 h3
    simp at h3

/-- Witness for the amended claim C5 at an entity outside the window. -/
theorem powerlaw_alloc_zero_or_in_range_witness :
    (0 : ℤ) = 0 ∨ ((3 : ℤ) ≤ 0 ∧ (0 : ℤ) ≤ 7) :=
  powerlaw_alloc_zero_or_in_range [("A", (1 : ℚ))] POWER_LAW_ALPHA 0 7 3 20
    (by norm_num) "A" 0
    (foldl_updAlloc_zero Prod.fst _ _ _ (by simp))

/-!
## Win matrix builder (`build_win_matrix`, rank.py lines 49-75)

The two defaultdicts are modelled as count functions plus explicit key
lists recording which outer keys have been created, in creation order.
-/

/-- Key registration of a Python defaultdict: touching a missing key
appends it. -/
def addKey (l : List String) (k : String) : List String :=
  if k ∈ l then l else l ++ [k]

/-- The increment `wins[x][y] += 1`. -/
def bumpWin (w : String → String → ℕ) (x y : String) : String → String → ℕ :=
  fun a b => if a = x ∧ b = y then w x y + 1 else w a b

/-- One dict write `records[k] = v`. -/
def updRec (f : String → ℕ × ℕ) (k : String) (v : ℕ × ℕ) : String → ℕ × ℕ :=
  fun x => if x = k then v else f x

/-- The state built by `build_win_matrix`: outer keys and counts of the
`wins` dict, keys and values of the `records` dict. -/
structure WinData where
  wkeys : List String
  wins : String → String → ℕ
  rkeys : List String
  recs : String → ℕ × ℕ

/-- The branch body executed for one outcome with the given winner and
loser: `wins[winner][loser] += 1`, `records[winner] = (w + 1, t + 1)`,
`records[loser] = (w, t + 1)`; reading a missing defaultdict key registers
it, winner first. -/
def recordWin (d : WinData) (winner loser : String) : WinData :=
  let recs1 := updRec d.recs winner ((d.recs winner).1 + 1, (d.recs winner).2 + 1)
  let recs2 := updRec recs1 loser ((recs1 loser).1, (recs1 loser).2 + 1)
  { wkeys := addKey d.wkeys winner
    wins := bumpWin d.wins winner loser
    rkeys := addKey (addKey d.rkeys winner) loser
    recs := recs2 }

/-- The trailing touches `wins[a]; wins[b]; records[a]; records[b]` that
register both participants as known entities. -/
def touchKeys (d : WinData) (a b : String) : WinData :=
  { d with
    wkeys := addKey (addKey d.wkeys a) b
    rkeys := addKey (addKey d.rkeys a) b }

/-- The loop body of `build_win_matrix` for one outcome `(a, b, winner)`. -/
def bwStep (d : WinData) (o : String × String × String) : WinData :=
  let d2 := if o.2.2 = o.1 then recordWin d o.1 o.2.1 else recordWin d o.2.1 o.1
  touchKeys d2 o.1 o.2.1

/-- `build_win_matrix(results)`: fold the loop body over the outcome list
starting from empty defaultdicts. -/
def build_win_matrix (results : List (String × String × String)) : WinData :=
  results.foldl bwStep ⟨[], fun _ _ => 0, [], fun _ => (0, 0)⟩

/-- The concrete outcome list of the end-to-end example. -/
def exampleOutcomes : List (String × String × String) :=
  [("A", "B", "A"), ("A", "B", "B"), ("A", "C", "A")]

/-- Claim C7: on the example outcomes, the builder produces exactly the
win counts A beats B once, B beats A once, A beats C once and nothing
else, the records A = (2, 3), B = (1, 2), C = (0, 1), and registers all
three entities as keys of the win matrix. -/
theorem build_win_matrix_example :
    (build_win_matrix exampleOutcomes).wins "A" "B" = 1
    ∧ (build_win_matrix exampleOutcomes).wins "B" "A" = 1
    ∧ (build_win_matrix exampleOutcomes).wins "A" "C" = 1
    ∧ (∀ x y, (build_win_matrix exampleOutcomes).wins x y ≠ 0 →
        (x, y) = ("A", "B") ∨ (x, y) = ("B", "A") ∨ (x, y) = ("A", "C"))
    ∧ (build_win_matrix exampleOutcomes).recs "A" = (2, 3)
    ∧ (build_win_matrix exampleOutcomes).recs "B" = (1, 2)
    ∧ (build_win_matrix exampleOutcomes).recs "C" = (0, 1)
    ∧ (build_win_matrix exampleOutcomes).wkeys = ["A", "B", "C"]
    ∧ (build_win_matrix exampleOutcomes).rkeys = ["A", "B", "C"] := by
  have hw : (build_win_matrix exampleOutcomes).wins
      = bumpWin (bumpWin (bumpWin (fun _ _ => 0) "A" "B") "B" "A") "A" "C" := by
    with_unfolding_all rfl
  refine ⟨by with_unfolding_all decide, by with_unfolding_all decide,
    by with_unfolding_all decide, ?_, by with_unfolding_all decide,
    by with_unfolding_all decide, by with_unfolding_all decide,
    by with_unfolding_all decide, by with_unfolding_all decide⟩
  intro x y h
  rw [hw] at h
  by_cases h1 : x = "A" ∧ y = "C"
  · exact Or.inr (Or.inr (by simp [h1.1, h1.2]))
  by_cases h2 : x = "B" ∧ y = "A"
  · exact Or.inr (Or.inl (by simp [h2.1, h2.2]))
  by_cases h3 : x = "A" ∧ y = "B"
  · exact Or.inl (by simp [h3.1, h3.2])
  exact absurd (by simp [bumpWin, h1, h2, h3]) h

/-!
## Outcome ingestion (`load_results`, rank.py lines 20-46)

A CSV row as seen by the DictReader: the two participant columns and the
two optional winner columns (`none` models a missing column, which
`row.get` turns into the empty string).  Python `str.strip()` is modelled
by `String.trim`.  The two `ValueError` sites are the malformed-record
error; the `No comparison data found` site is the empty-input error.
-/

/-- One raw comparison row. -/
structure CsvRow where
  project_a : String
  project_b : String
  winner : Option String
  winner_name : Option String

/-- The error taxonomy of ingestion. -/
inductive LoadError where
  | malformed
  | empty
deriving DecidableEq

/-- The per-row body of the `load_results` loop: resolve the winner, using
a non-empty `winner_name` first, then the symbolic `winner` key, and check
that the resolved winner is one of the two participants. -/
def resolveRow (r : CsvRow) : Except LoadError (String × String × String) :=
  let a := r.project_a.trim
  let b := r.project_b.trim
  let winner_key := (r.winner.getD "").trim
  let winner_name := (r.winner_name.getD "").trim
  if winner_name ≠ "" then
    if winner_name = a ∨ winner_name = b then .ok (a, b, winner_name)
    else .error .malformed
  else if winner_key = "project_a" then
    if a = a ∨ a = b then .ok (a, b, a) else .error .malformed
  else if winner_key = "project_b" then
    if b = a ∨ b = b then .ok (a, b, b) else .error .malformed
  else .error .malformed

/-- The row loop of `load_results`: append each resolved outcome in input
order, aborting at the first bad row. -/
def loadRows : List CsvRow → Except LoadError (List (String × String × String))
  | [] => .ok []
  | r :: rs =>
    match resolveRow r with
    | .error e => .error e
    | .ok o =>
      match loadRows rs with
      | .error e => .error e
      | .ok os => .ok (o :: os)

/-- `load_results(path)`: run the row loop, then fail with the empty-input
error when no rows were produced. -/
def load_results (rows : List CsvRow) : Except LoadError (List (String × String × String)) :=
  match loadRows rows with
  | .error e => .error e
  | .ok os => if os.isEmpty then .error .empty else .ok os

lemma resolveRow_error_malformed (r : CsvRow) (e : LoadError)
    (h : resolveRow r = .error e) : e = .malformed := by
  simp only [resolveRow] at h
  split_ifs at h <;> simp_all

lemma loadRows_ok_iff (rows : List CsvRow) (outs : List (String × String × String)) :
    loadRows rows = .ok outs
      ↔ List.Forall₂ (fun r o => resolveRow r = .ok o) rows outs := by
  induction rows generalizing outs with
  | nil =>
    constructor
    · intro h
      cases h
      exact List.Forall₂.nil
    · intro h
      cases h
      rfl
  | cons r rs ih =>
    constructor
    · intro h
      unfold loadRows at h
      cases hres : resolveRow r with
      | error e => rw [hres] at h; cases h
      | ok o =>
        rw [hres] at h
        cases hrec : loadRows rs with
        | error e => rw [hrec] at h; cases h
        | ok os =>
          rw [hrec] at h
          cases h
          exact List.Forall₂.cons hres ((ih os).mp hrec)
    · intro h
      cases h with
      | cons hro hrest =>
        unfold loadRows
        rw [hro, (ih _).mpr hrest]

lemma loadRows_error_iff (rows : List CsvRow) (e : LoadError) :
    loadRows rows = .error e
      ↔ e = .malformed ∧ ∃ r ∈ rows, resolveRow r = .error .malformed := by
  induction rows with
  | nil => simp [loadRows]
  | cons r rs ih =>
    constructor
    · intro h
      unfold loadRows at h
      cases hres : resolveRow r with
      | error e2 =>
        rw [hres] at h
        cases h
        have he := resolveRow_error_malformed r e hres
        exact ⟨he, r, List.mem_cons_self r rs, he ▸ hres⟩
      | ok o =>
        rw [hres] at h
        cases hrec : loadRows rs with
        | error e2 =>
          rw [hrec] at h
          cases h
          obtain ⟨he, x, hx, hxe⟩ := ih.mp hrec
          exact ⟨he, x, List.mem_cons_of_mem r hx, hxe⟩
        | ok os => rw [hrec] at h; cases h
    · rintro ⟨rfl, x, hx, hxe⟩
      unfold loadRows
      rcases List.mem_cons.mp hx with rfl | hx2
      · rw [hxe]
      · cases hres : resolveRow r with
        | error e2 =>
          rw [resolveRow_error_malformed r e2 hres]
        | ok o =>
          rw [ih.mpr ⟨rfl, x, hx2, hxe⟩]

/-- Claim C8: ingestion fails with the malformed-record error exactly when
some row has an unresolvable winner indicator or a resolved winner that is
not one of the two participants, fails with the empty-input error exactly
when there are zero rows, and otherwise returns the full validated outcome
list in input row order. -/
theorem load_results_spec (rows : List CsvRow) :
    (load_results rows = .error .empty ↔ rows = [])
    ∧ (load_results rows = .error .malformed ↔ ∃ r ∈ rows, resolveRow r = .error .malformed)
    ∧ (∀ outs, load_results rows = .ok outs ↔
        (rows ≠ [] ∧ List.Forall₂ (fun r o => resolveRow r = .ok o) rows outs))
    ∧ (∀ r : CsvRow,
        resolveRow r = .error .malformed ↔
          (((r.winner_name.getD "").trim = "" ∧ (r.winner.getD "").trim ≠ "project_a"
              ∧ (r.winner.getD "").trim ≠ "project_b")
            ∨ ((r.winner_name.getD "").trim ≠ "" ∧ (r.winner_name.getD "").trim ≠ r.project_a.trim
              ∧ (r.winner_name.getD "").trim ≠ r.project_b.trim))) := by
  refine ⟨?_, ?_, ?_, ?_⟩
  · unfold load_results
    cases h : loadRows rows with
    | error e =>
      have he := (loadRows_error_iff rows e).mp h
      constructor
      · intro habs
        rw [he.1] at habs
        cases habs
      · intro hrows
        subst hrows
        cases h
    | ok os =>
      cases os with
      | nil =>
        simp only [List.isEmpty_nil, if_pos rfl]
        constructor
        · intro _
          have := (loadRows_ok_iff rows []).mp h
          exact List.forall₂_nil_right_iff.mp this
        · intro _
          rfl
      | cons o os2 =>
        simp only [List.isEmpty_cons, if_neg Bool.false_ne_true]
        constructor
        · intro habs
          cases habs
        · intro hrows
          subst hrows
          cases h
  · unfold load_results
    cases h : loadRows rows with
    | error e =>
      have he := (loadRows_error_iff rows e).mp h
      constructor
      · intro _
        exact he.2
      · intro _
        rw [he.1]
    | ok os =>
      constructor
      · intro habs
        cases os with
        | nil => simp at habs
        | cons o os2 =>
          simp only [List.isEmpty_cons, if_neg Bool.false_ne_true] at habs
          cases habs
      · rintro ⟨x, hx, hxe⟩
        have := (loadRows_error_iff rows LoadError.malformed).mpr ⟨rfl, x, hx, hxe⟩
        rw [h] at this
        cases this
  · intro outs
    unfold load_results
    cases h : loadRows rows with
    | error e =>
      constructor
      · intro habs
        cases habs
      · rintro ⟨-, hfa⟩
        have := (loadRows_ok_iff rows outs).mpr hfa
        rw [h] at this
        cases this
    | ok os =>
      cases os with
      | nil =>
        simp only [List.isEmpty_nil, if_pos rfl]
        constructor
        · intro habs
          cases habs
        · rintro ⟨hne, hfa⟩
          have := (loadRows_ok_iff rows outs).mpr hfa
          rw [h] at this
          cases this
          exact absurd (List.forall₂_nil_right_iff.mp hfa) hne
      | cons o os2 =>
        simp only [List.isEmpty_cons, if_neg Bool.false_ne_true]
        constructor
        · intro hok
          cases hok
          refine ⟨?_, (loadRows_ok_iff rows (o :: os2)).mp h⟩
          intro hrows
          subst hrows
          cases h
        · rintro ⟨-, hfa⟩
          have := (loadRows_ok_iff rows outs).mpr hfa
          rw [h] at this
          cases this
          rfl
  · intro r
    simp only [resolveRow]
    by_cases h1 : (r.winner_name.getD "").trim = "" <;>
      by_cases h2 : (r.winner.getD "").trim = "project_a" <;>
        by_cases h3 : (r.winner.getD "").trim = "project_b" <;>
          by_cases h4 : (r.winner_name.getD "").trim = r.project_a.trim <;>
            by_cases h5 : (r.winner_name.getD "").trim = r.project_b.trim <;>
              simp [h1, h2, h3, h4, h5] <;>
                (split <;> simp)

/-- Witness for claim C8: a row whose winner name is absent and whose
winner key is empty is rejected as malformed. -/
theorem load_results_spec_witness :
    load_results [⟨"A", "B", some "", none⟩] = .error .malformed :=
  (load_results_spec [⟨"A", "B", some "", none⟩]).2.1.mpr
    ⟨⟨"A", "B", some "", none⟩, by simp,
      ((load_results_spec [⟨"A", "B", some "", none⟩]).2.2.2 ⟨"A", "B", some "", none⟩).mpr
        (Or.inl ⟨by with_unfolding_all decide, by with_unfolding_all decide,
          by with_unfolding_all decide⟩)⟩

/-- Claim C10: a non-empty trimmed `winner_name` takes strict precedence
over the symbolic `winner` key: the result of resolving the row does not
depend on the `winner` field at all, and when the name matches neither
participant the row is rejected even when the `winner` key is a valid
selector. -/
theorem winner_name_precedence (r : CsvRow) (k : Option String)
    (h : (r.winner_name.getD "").trim ≠ "") :
    resolveRow { r with winner := k } = resolveRow r
    ∧ ((r.winner_name.getD "").trim ≠ r.project_a.trim →
        (r.winner_name.getD "").trim ≠ r.project_b.trim →
        resolveRow r = .error .malformed) := by
  constructor
  · simp only [resolveRow]
    simp [h]
  · intro hna hnb
    simp only [resolveRow]
    simp [h, hna, hnb]

/-- A row whose winner key is a valid selector but whose winner name names
a third party. -/
def rowThirdParty : CsvRow := ⟨"A", "B", some "project_a", some "C"⟩

/-- Witness for claim C10: the third-party winner name is rejected even
though the winner key selects project A. -/
theorem winner_name_precedence_witness :
    resolveRow rowThirdParty = .error .malformed :=
  (winner_name_precedence rowThirdParty none (by with_unfolding_all decide)).2
    (by with_unfolding_all decide) (by with_unfolding_all decide)
